import Mathlib

/-!
Verification of `slsim/image_simulation.py`: a shallow embedding of the
pixel-domain image-synthesis pipeline (coordinate-grid construction,
point-source and extended-light rendering, multi-epoch compositing and
Poisson noise), together with proofs of the specified properties.

Conventions of the embedding:

* A numpy 2-D array is a `PImage R`: a shape (`rows`, `cols`) together with a
  total pixel function.  Equal-shape elementwise addition keeps the left
  operand's shape (the only additions performed by the code are between
  equal-shape arrays).
* Python floats are elements of a `LinearOrderedField R`, instantiated at `ℚ`
  for executable checks and at `ℝ` where the magnitude-to-amplitude formula
  is needed; floating-point rounding is not modelled.
* Arguments that are duck-typed in Python (a scalar or a sequence) are sum
  types `R ⊕ List R` and the like; paths on which Python would raise a
  `TypeError` return `Except.error Err.typeError`.
* Python exceptions are modelled with `Except Err`: an uncaught `IndexError`
  from sequence indexing is `Err.indexError`, `raise ValueError(msg)` is
  `Err.valueError msg`.
* The external collaborators — the lenstronomy renderers consumed through
  `SimAPI`/`PointSourceRendering`, and the photometric conversion from
  `slsim.Util.param_util` — are fields of an abstract `Backend` record; the
  lens system is a `LensSystem` record.  The numpy Poisson sampler is an
  explicit draw oracle `ℕ → ℕ → ℕ → ℕ` (image index, row, column ↦ sampled
  count), so properties quantify over every outcome of the draw.
-/

set_option linter.unusedVariables false
set_option linter.unusedSectionVars false

namespace Slsim

/-- Exceptions that the embedded pipeline can raise. -/
inductive Err where
  | valueError : String → Err
  | indexError : Err
  | typeError : Err
deriving DecidableEq

/-- A numpy 2-D array: a shape together with a total pixel function. -/
structure PImage (R : Type) where
  rows : ℕ
  cols : ℕ
  pix : ℕ → ℕ → R

/-- A 2×2 `transform_pix2angle` matrix; field `tij` is entry `[i, j]`. -/
structure Mat2 (R : Type) where
  t00 : R
  t01 : R
  t10 : R
  t11 : R
deriving DecidableEq

/-- The dictionary returned by `centered_coordinate_system`: the origin
offsets together with the transform. -/
structure GridKwargs (R : Type) where
  ra_at_xy_0 : R
  dec_at_xy_0 : R
  transform_pix2angle : Mat2 R
deriving DecidableEq

/-- The externally owned lens-system capability object (spec section 3):
the source-type tag, the deflector sky position, the lensed-image sky
positions (`image_positions()` returns two parallel coordinate lists), and
the point-source magnitude queries without and with a time argument
(`point_source_magnitude(band, lensed=True[, time])`). -/
structure LensSystem (R : Type) where
  _source_type : String
  deflector_position : R × R
  image_ra : List R
  image_dec : List R
  point_source_magnitude_static : String → List R
  point_source_magnitude_at : String → R → List R

/-- Well-formedness of the external lens system: the parallel coordinate
lists agree in length and every magnitude query returns one value per lensed
image (spec section 3: the amplitude vector's length must equal the number
of lensed-image positions). -/
def LensSystem.wf {R : Type} (lens : LensSystem R) : Prop :=
  lens.image_dec.length = lens.image_ra.length ∧
  (∀ band, (lens.point_source_magnitude_static band).length = lens.image_ra.length) ∧
  ∀ band t, (lens.point_source_magnitude_at band t).length = lens.image_ra.length

/-- External rendering collaborators (spec section 6), treated as abstract
functions: `render_unconvolved` is the lenstronomy image model invoked by
`sharp_image` (arguments: lens, band, magnitude zero point, pixel scale,
number of pixels, `source_add`, `lens_light_add`, `point_source_add`);
`point_source_rendering` is `PointSourceRendering.point_source_rendering`
(arguments: pixel-grid data, number of pixels, PSF kernel, ra, dec,
amplitude); `magnitude_to_amplitude` is the photometric conversion imported
from `slsim.Util.param_util` (repository code outside `src/`). -/
structure Backend (R : Type) where
  render_unconvolved : LensSystem R → String → R → R → ℕ → Bool → Bool → Bool → PImage R
  point_source_rendering : GridKwargs R → ℕ → PImage R → R → R → R → PImage R
  magnitude_to_amplitude : R → R → R

variable {R : Type} [LinearOrderedField R]

/-- Embedding of `centered_coordinate_system` (image_simulation.py, lines
159–182): computes the fractional centre-pixel index and the origin offsets
and returns them in a grid dictionary together with the transform unchanged.
It is a pure function, so the call has no side effects. -/
def centered_coordinate_system (num_pix : ℕ) (transform_pix2angle : Mat2 R) :
    GridKwargs R :=
  let pix_center : R := ((num_pix : R) - 1) / 2
  let ra_center :=
    pix_center * transform_pix2angle.t00 + pix_center * transform_pix2angle.t10
  let dec_center :=
    pix_center * transform_pix2angle.t01 + pix_center * transform_pix2angle.t11
  ⟨-ra_center, -dec_center, transform_pix2angle⟩

/-- Modelled from the spec: the pixel-to-sky affine map of the coordinate
grid is implemented by the external lenstronomy data class, which is not part
of this repository; per spec sections 4.1–4.2 pixel `(x, y)` maps to sky
coordinate `(ra_at_xy_0 + x·T00 + y·T10, dec_at_xy_0 + x·T01 + y·T11)`. -/
def map_pix2coord (g : GridKwargs R) (x y : R) : R × R :=
  (g.ra_at_xy_0 + x * g.transform_pix2angle.t00 + y * g.transform_pix2angle.t10,
   g.dec_at_xy_0 + x * g.transform_pix2angle.t01 + y * g.transform_pix2angle.t11)

/-- C4: for every `num_pix ≥ 1` and every 2×2 transform `T`, the grid builder
returns the transform unchanged together with origin offsets
`ra_at_xy_0 = −(c·T00 + c·T10)` and `dec_at_xy_0 = −(c·T01 + c·T11)` where
`c = (num_pix − 1)/2`, so that pixel `(c, c)` maps to sky coordinate `(0, 0)`
exactly; the builder is a pure function (no side effects). -/
theorem claim_C4 (num_pix : ℕ) (T : Mat2 R) (hnp : 1 ≤ num_pix) :
    centered_coordinate_system num_pix T =
      ⟨-((((num_pix : R) - 1) / 2) * T.t00 + (((num_pix : R) - 1) / 2) * T.t10),
       -((((num_pix : R) - 1) / 2) * T.t01 + (((num_pix : R) - 1) / 2) * T.t11),
       T⟩ ∧
    map_pix2coord (centered_coordinate_system num_pix T)
      (((num_pix : R) - 1) / 2) (((num_pix : R) - 1) / 2) = (0, 0) := by
  refine ⟨rfl, ?_⟩
  simp only [centered_coordinate_system, map_pix2coord, Prod.mk.injEq]
  constructor <;> ring

/-- Elementwise addition of equal-shape numpy arrays; the left operand's
shape is kept (the pipeline only ever adds arrays of equal shape). -/
def PImage.add (a b : PImage R) : PImage R :=
  ⟨a.rows, a.cols, fun i j => a.pix i j + b.pix i j⟩

/-- A zero array of the same shape as the given array (`np.zeros(a.shape)`). -/
def zeroLike (a : PImage R) : PImage R :=
  ⟨a.rows, a.cols, fun _ _ => 0⟩

/-- Modelled from the spec: `convolved_image` is imported from
`slsim.Util.param_util`, repository code that is not under `src/`; per spec
section 4.5 it convolves a pixel image with a PSF kernel, returning an image
of the same shape as the input.  The boundary convention chosen here is
immaterial to the claims, which treat convolution as a black box. -/
def convolved_image (image : PImage R) (psf_kernel : PImage R) : PImage R :=
  ⟨image.rows, image.cols, fun i j =>
    ∑ a in Finset.range psf_kernel.rows, ∑ b in Finset.range psf_kernel.cols,
      psf_kernel.pix a b * image.pix (i + a) (j + b)⟩

/-- Modelled from the spec: `magnitude_to_amplitude` is imported from
`slsim.Util.param_util`, repository code that is not under `src/`; per spec
section 4.3 the linear amplitude is `10^(−0.4·(magnitude − zero_point))`. -/
noncomputable def magnitude_to_amplitude (magnitude mag_zero_point : ℝ) : ℝ :=
  (10 : ℝ) ^ (-(0.4 : ℝ) * (magnitude - mag_zero_point))

/-- Embedding of `sharp_image` (lines 60–107): assembles the single-band
keyword arguments and calls the external lenstronomy image model with
`unconvolved=True`, `source_add=with_source`, `lens_light_add=with_deflector`
and `point_source_add=False`.  Everything but the final call is external
bookkeeping, so the embedding is the corresponding `Backend` call. -/
def sharp_image (B : Backend R) (lens_class : LensSystem R) (band : String)
    (mag_zero_point delta_pix : R) (num_pix : ℕ)
    (with_source with_deflector : Bool) : PImage R :=
  B.render_unconvolved lens_class band mag_zero_point delta_pix num_pix
    with_source with_deflector false

/-- Embedding of `image_data_class` (lines 185–214): the external `SimAPI`
data class is reduced to the pixel-grid content it is built from, namely
`centered_coordinate_system(num_pix, transform_pix2angle)`. -/
def image_data_class (lens_class : LensSystem R) (band : String)
    (mag_zero_point delta_pix : R) (num_pix : ℕ)
    (transform_pix2angle : Mat2 R) : GridKwargs R :=
  centered_coordinate_system num_pix transform_pix2angle

/-- The part of the dictionary built by `point_source_coordinate_properties`
that is consumed downstream. -/
structure CoordProps (R : Type) where
  ra_image : List R
  dec_image : List R

/-- Embedding of `point_source_coordinate_properties` (lines 217–255):
queries the lens system for the lensed-image sky positions.  The
`deflector_pix`/`image_pix` entries of the returned dictionary (pixel
coordinates obtained through the external `map_coord2pix`) are not consumed
by any downstream caller in this module and are omitted. -/
def point_source_coordinate_properties (lens_class : LensSystem R)
    (band : String) (mag_zero_point delta_pix : R) (num_pix : ℕ)
    (transform_pix2angle : Mat2 R) : CoordProps R :=
  ⟨lens_class.image_ra, lens_class.image_dec⟩

/-- The indexed loop `for i in range(len(ra)): render(ra[i], dec[i], amp[i])`
shared by the point-source renderers: walks the three lists in lockstep and
raises `IndexError` at the first index where `dec` or `amp` is exhausted,
exactly as Python indexing would. -/
def renderEach (f : R → R → R → PImage R) :
    List R → List R → List R → Except Err (List (PImage R))
  | [], _, _ => .ok []
  | _ :: _, [], _ => .error .indexError
  | _ :: _, _ :: _, [] => .error .indexError
  | r :: rs, d :: ds, a :: as_ =>
    (renderEach f rs ds as_).map (f r d a :: ·)

/-- Embedding of `point_source_image_without_variability` (lines 258–314):
converts the static lensed magnitudes to amplitudes at the zero point and
renders each lensed image independently with the shared grid and PSF. -/
def point_source_image_without_variability (B : Backend R)
    (lens_class : LensSystem R) (band : String)
    (mag_zero_point delta_pix : R) (num_pix : ℕ) (psf_kernel : PImage R)
    (transform_pix2angle : Mat2 R) : Except Err (List (PImage R)) :=
  let image_data := point_source_coordinate_properties lens_class band
    mag_zero_point delta_pix num_pix transform_pix2angle
  let data_class := image_data_class lens_class band mag_zero_point delta_pix
    num_pix transform_pix2angle
  let magnitude := lens_class.point_source_magnitude_static band
  let amp := magnitude.map (fun m => B.magnitude_to_amplitude m mag_zero_point)
  renderEach
    (fun r d a => B.point_source_rendering data_class num_pix psf_kernel r d a)
    image_data.ra_image image_data.dec_image amp

/-- Embedding of `point_source_image_at_time` (lines 317–377): as above but
with the magnitudes queried at the given observation time. -/
def point_source_image_at_time (B : Backend R) (lens_class : LensSystem R)
    (band : String) (mag_zero_point delta_pix : R) (num_pix : ℕ)
    (psf_kernel : PImage R) (transform_pix2angle : Mat2 R) (time : R) :
    Except Err (List (PImage R)) :=
  let image_data := point_source_coordinate_properties lens_class band
    mag_zero_point delta_pix num_pix transform_pix2angle
  let data_class := image_data_class lens_class band mag_zero_point delta_pix
    num_pix transform_pix2angle
  let variable_mag := lens_class.point_source_magnitude_at band time
  let variable_amp :=
    variable_mag.map (fun m => B.magnitude_to_amplitude m mag_zero_point)
  renderEach
    (fun r d a => B.point_source_rendering data_class num_pix psf_kernel r d a)
    image_data.ra_image image_data.dec_image variable_amp

/-- Python `zip(a, b, c, d)`: truncates to the shortest of the four
sequences. -/
def zip4 {α β γ δ : Type} : List α → List β → List γ → List δ →
    List (α × β × γ × δ)
  | a :: as_, b :: bs, c :: cs, d :: ds => (a, b, c, d) :: zip4 as_ bs cs ds
  | _, _, _, _ => []

/-- Python `zip(*xss)` followed by `list(...)` on each tuple: the transpose
truncated to the shortest inner list, and empty when `xss` is empty. -/
def transposePy {α : Type} : List (List α) → List (List α)
  | [] => []
  | [xs] => xs.map (fun a => [a])
  | xs :: rest => List.zipWith List.cons xs (transposePy rest)

/-- Sequential effectful map over `Except`, mirroring a Python `for` loop
that appends to an accumulator and propagates the first raised exception. -/
def exMapM {α β : Type} (g : α → Except Err β) : List α → Except Err (List β)
  | [] => .ok []
  | a :: as_ =>
    match g a with
    | .error e => .error e
    | .ok b => (exMapM g as_).map (b :: ·)

/-- The `np.array(...)`/`np.zeros`/`+=` tail of
`point_source_image_with_variability` (lines 419–426): transpose the
per-epoch lists, read `image[0].shape` (an `IndexError` when the transpose is
empty) and sum the per-lensed-image rows into one array per epoch. -/
def npEpochSum (all_image : List (List (PImage R))) :
    Except Err (List (PImage R)) :=
  match transposePy all_image with
  | [] => .error .indexError
  | first :: rest =>
    .ok (List.foldl (List.zipWith PImage.add) (first.map zeroLike)
      (first :: rest))

/-- Embedding of `point_source_image_with_variability` (lines 380–426): zips
the four epoch sequences (silently truncating to the shortest, as Python
`zip` does), renders the point sources at each epoch, then transposes and
sums over lensed images to produce one summed point-source array per
epoch. -/
def point_source_image_with_variability (B : Backend R)
    (lens_class : LensSystem R) (band : String) (mag_zero_point : List R)
    (delta_pix : R) (num_pix : ℕ) (psf_kernels : List (PImage R))
    (transform_pix2angle : List (Mat2 R)) (t_obs : List R) :
    Except Err (List (PImage R)) := do
  let quads := zip4 t_obs psf_kernels mag_zero_point transform_pix2angle
  let all_image ← exMapM
    (fun q => point_source_image_at_time B lens_class band q.2.2.1 delta_pix
      num_pix q.2.1 q.2.2.2 q.1) quads
  npEpochSum all_image

/-- Embedding of `deflector_images_with_different_zeropoint` (lines
428–448): one `sharp_image` (with its default component flags, i.e. source
and deflector light both included) per zero point. -/
def deflector_images_with_different_zeropoint (B : Backend R)
    (lens_class : LensSystem R) (band : String) (mag_zero_point : List R)
    (delta_pix : R) (num_pix : ℕ) : List (PImage R) :=
  mag_zero_point.map
    (fun mag_zero => sharp_image B lens_class band mag_zero delta_pix num_pix
      true true)

/-- The in-place clipping `image[image < 0] = 0` performed by the noise
model on its argument array. -/
def pyClipNeg (img : PImage R) : PImage R :=
  ⟨img.rows, img.cols, fun i j => if img.pix i j < 0 then 0 else img.pix i j⟩

/-- One Poisson-noise application
`np.random.poisson(img * expo) / expo`: every pixel is replaced by its
sampled photon count (a natural number drawn by the oracle) divided by the
exposure time. -/
def pyPoissonDiv (draw : ℕ → ℕ → ℕ) (img : PImage R) (expo : R) : PImage R :=
  ⟨img.rows, img.cols, fun i j => ((draw i j : ℕ) : R) / expo⟩

/-- The list branch of `image_plus_possion_noise`, in state-passing form:
walks the image list, clips each array in place (the first component of the
result is the caller's list after the call), looks up `expo_time[i]`
(`IndexError` past the end of the exposure list, `TypeError` when a scalar
was supplied) and appends the noised image.  On an exception the already
processed prefix and the current image remain clipped and the suffix is
untouched, as in Python. -/
def noiseAux (draw : ℕ → ℕ → ℕ → ℕ) (getE : ℕ → Except Err R) (k : ℕ) :
    List (PImage R) → List (PImage R) × Except Err (List (PImage R))
  | [] => ([], .ok [])
  | img :: rest =>
    let data := pyClipNeg img
    match getE k with
    | .error e => (data :: rest, .error e)
    | .ok e =>
      let noised := pyPoissonDiv (draw k) data e
      let res := noiseAux draw getE (k + 1) rest
      (data :: res.1, res.2.map (noised :: ·))

/-- The `expo_time[i]` lookup inside the list branch of the noise model:
an `IndexError` past the end of the list, a `TypeError` when a scalar was
supplied where the loop indexes it. -/
def pyExpoAt : (R ⊕ List R) → ℕ → Except Err R
  | .inl _, _ => .error .typeError
  | .inr es, i =>
    match es.get? i with
    | some e => .ok e
    | none => .error .indexError

/-- Embedding of `image_plus_possion_noise` (lines 450–468) in state-passing
form: the first component of the result is the caller's argument after the
call (the function clips its input in place), the second is the returned
value.  A list exposure supplied with a single image (a numpy broadcast
whose behaviour depends on the shapes) is modelled as a `TypeError`. -/
def image_plus_possion_noise (draw : ℕ → ℕ → ℕ → ℕ)
    (image : PImage R ⊕ List (PImage R)) (exposure_time : R ⊕ List R) :
    (PImage R ⊕ List (PImage R)) × Except Err (PImage R ⊕ List (PImage R)) :=
  match image with
  | .inr imgs =>
    let res := noiseAux draw (pyExpoAt exposure_time) 0 imgs
    (.inr res.1, res.2.map .inr)
  | .inl img =>
    match exposure_time with
    | .inl e =>
      let data := pyClipNeg img
      (.inl data, .ok (.inl (pyPoissonDiv (draw 0) data e)))
    | .inr _ => (.inl (pyClipNeg img), .error .typeError)

/-- The composition loop of `lens_image` (lines 509–513):
`for i in range(len(t_obs)): point_image[i] + convolved_deflector_image[i]`,
walking both lists in lockstep for `K` steps and raising `IndexError` at the
first exhausted list. -/
def composeEpochs : List (PImage R) → List (PImage R) → ℕ →
    Except Err (List (PImage R))
  | _, _, 0 => .ok []
  | [], _, _ + 1 => .error .indexError
  | _ :: _, [], _ + 1 => .error .indexError
  | p :: ps, c :: cs, n + 1 =>
    (composeEpochs ps cs n).map (p.add c :: ·)

/-- Python `sum(point_images) + convolved` (line 538): the built-in `sum`
starts from the integer `0`, which numpy then absorbs into the first array,
so an empty list leaves just the convolved image. -/
def pySumPlus (point_images : List (PImage R)) (convolved : PImage R) :
    PImage R :=
  match point_images with
  | [] => convolved
  | a :: rest => (rest.foldl PImage.add a).add convolved

/-- Embedding of `lens_image` (lines 470–572), the orchestrator: dispatches
on the source type and the presence of `t_obs` exactly as the Python
`if`/`elif`/`else` chain does.  Duck-typed arguments that the taken branch
would misuse (for example a scalar zero point where the time-series branch
iterates over it) are modelled as a `TypeError`. -/
def lens_image (B : Backend R) (draw : ℕ → ℕ → ℕ → ℕ)
    (lens_class : LensSystem R) (band : String)
    (mag_zero_point : R ⊕ List R) (delta_pix : R) (num_pix : ℕ)
    (psf_kernels : PImage R ⊕ List (PImage R))
    (transform_pix2angle : Mat2 R ⊕ List (Mat2 R))
    (exposure_time : Option (R ⊕ List R)) (t_obs : Option (List R)) :
    Except Err (PImage R ⊕ List (PImage R)) :=
  let source_type := lens_class._source_type
  if source_type = "point_source" ∨ source_type = "point_plus_extended_source"
  then
    match t_obs with
    | some ts =>
      match mag_zero_point, psf_kernels, transform_pix2angle with
      | .inr zs, .inr ks, .inr tfs => do
        let point_image ← point_source_image_with_variability B lens_class
          band zs delta_pix num_pix ks tfs ts
        let images := deflector_images_with_different_zeropoint B lens_class
          band zs delta_pix num_pix
        let convolved_deflector_image :=
          List.zipWith (fun imag psf_kern => convolved_image imag psf_kern)
            images ks
        let final_images ←
          composeEpochs point_image convolved_deflector_image ts.length
        match exposure_time with
        | some expo => (image_plus_possion_noise draw (.inr final_images) expo).2
        | none => .ok (.inr final_images)
      | _, _, _ => .error .typeError
    | none =>
      match mag_zero_point, psf_kernels, transform_pix2angle with
      | .inl z, .inl k, .inl tf => do
        let point_image ← point_source_image_without_variability B lens_class
          band z delta_pix num_pix k tf
        let deflector_image :=
          sharp_image B lens_class band z delta_pix num_pix true true
        let convolved_deflector_image := convolved_image deflector_image k
        let final_image := pySumPlus point_image convolved_deflector_image
        match exposure_time with
        | some expo => (image_plus_possion_noise draw (.inl final_image) expo).2
        | none => .ok (.inl final_image)
      | _, _, _ => .error .typeError
  else if source_type = "extended" then
    match t_obs with
    | some _ =>
      .error (.valueError
        "extented source do not have time variability. So,do not provide observation time.")
    | none =>
      match mag_zero_point, psf_kernels with
      | .inl z, .inl k =>
        let sharp := sharp_image B lens_class band z delta_pix num_pix true true
        let convolved_lens_image := convolved_image sharp k
        match exposure_time with
        | some expo =>
          (image_plus_possion_noise draw (.inl convolved_lens_image) expo).2
        | none => .ok (.inl convolved_lens_image)
      | _, _ => .error .typeError
  else .error (.valueError "source type is not supported.")

/-- Discriminates successful calls from raised exceptions. -/
def exceptIsOk {α : Type} : Except Err α → Bool
  | .ok _ => true
  | .error _ => false

/-- A concrete 2×2 test image over `ℚ`. -/
def qImage : PImage ℚ := ⟨2, 2, fun _ _ => 1⟩

/-- The identity transform over `ℚ`. -/
def qMat : Mat2 ℚ := ⟨1, 0, 0, 1⟩

/-- A concrete executable backend over `ℚ` for witnesses: the renderers
return constant images of the requested pixel count. -/
def qBackend : Backend ℚ :=
  ⟨fun _ _ _ _ n _ _ _ => ⟨n, n, fun _ _ => 1⟩,
   fun _ n _ _ _ a => ⟨n, n, fun _ _ => a⟩,
   fun m z => z - m⟩

/-- A concrete one-image lens system over `ℚ` with the given source type. -/
def qLens (tag : String) : LensSystem ℚ :=
  ⟨tag, (0, 0), [1], [1], fun _ => [20], fun _ t => [t + 20]⟩

/-- The all-zero Poisson draw oracle. -/
def draw0 : ℕ → ℕ → ℕ → ℕ := fun _ _ _ => 0

/-- C3: for every lens system with source type `extended`, no time series and
no exposure time, the pipeline returns exactly one 2-D array (the `single`
variant), equal to convolving the unconvolved extended render at the given
band, zero point, pixel scale and pixel count with the supplied PSF kernel,
with no noise applied. -/
theorem claim_C3 (B : Backend R) (draw : ℕ → ℕ → ℕ → ℕ)
    (lens_class : LensSystem R) (band : String) (z delta_pix : R)
    (num_pix : ℕ) (k : PImage R) (tf : Mat2 R)
    (hsrc : lens_class._source_type = "extended") :
    lens_image B draw lens_class band (.inl z) delta_pix num_pix (.inl k)
        (.inl tf) none none =
      .ok (.inl (convolved_image
        (sharp_image B lens_class band z delta_pix num_pix true true) k)) := by
  simp [lens_image, hsrc]

/-- Witness for C3 at a concrete extended-source lens over `ℚ`. -/
theorem claim_C3_witness :
    lens_image qBackend draw0 (qLens "extended") "i" (.inl 27) (1 / 5) 4
        (.inl qImage) (.inl qMat) none none =
      .ok (.inl (convolved_image
        (sharp_image qBackend (qLens "extended") "i" 27 (1 / 5) 4 true true)
        qImage)) :=
  claim_C3 qBackend draw0 (qLens "extended") "i" 27 (1 / 5) 4 qImage qMat rfl

/-- C6: for every lens system with source type `extended` and a non-empty
time series supplied, the call fails immediately with the descriptive
`ValueError` and produces no image, whatever the remaining arguments are. -/
theorem claim_C6 (B : Backend R) (draw : ℕ → ℕ → ℕ → ℕ)
    (lens_class : LensSystem R) (band : String)
    (mag_zero_point : R ⊕ List R) (delta_pix : R) (num_pix : ℕ)
    (psf_kernels : PImage R ⊕ List (PImage R))
    (transform_pix2angle : Mat2 R ⊕ List (Mat2 R))
    (exposure_time : Option (R ⊕ List R)) (ts : List R)
    (hsrc : lens_class._source_type = "extended") (hne : ts ≠ []) :
    lens_image B draw lens_class band mag_zero_point delta_pix num_pix
        psf_kernels transform_pix2angle exposure_time (some ts) =
      .error (.valueError
        "extented source do not have time variability. So,do not provide observation time.") := by
  simp [lens_image, hsrc]

/-- Witness for C6 at a concrete extended-source lens over `ℚ` with a
one-element time series. -/
theorem claim_C6_witness :
    lens_image qBackend draw0 (qLens "extended") "i" (.inl 27) (1 / 5) 4
        (.inl qImage) (.inl qMat) none (some [0]) =
      .error (.valueError
        "extented source do not have time variability. So,do not provide observation time.") :=
  claim_C6 qBackend draw0 (qLens "extended") "i" (.inl 27) (1 / 5) 4
    (.inl qImage) (.inl qMat) none [0] rfl (by decide)

/-- C7: for every lens system whose source type is none of the three
recognized tags, the pipeline fails at dispatch with the unsupported-type
`ValueError`, before any rendering work, whether or not a time series is
supplied. -/
theorem claim_C7 (B : Backend R) (draw : ℕ → ℕ → ℕ → ℕ)
    (lens_class : LensSystem R) (band : String)
    (mag_zero_point : R ⊕ List R) (delta_pix : R) (num_pix : ℕ)
    (psf_kernels : PImage R ⊕ List (PImage R))
    (transform_pix2angle : Mat2 R ⊕ List (Mat2 R))
    (exposure_time : Option (R ⊕ List R)) (t_obs : Option (List R))
    (h1 : lens_class._source_type ≠ "point_source")
    (h2 : lens_class._source_type ≠ "point_plus_extended_source")
    (h3 : lens_class._source_type ≠ "extended") :
    lens_image B draw lens_class band mag_zero_point delta_pix num_pix
        psf_kernels transform_pix2angle exposure_time t_obs =
      .error (.valueError "source type is not supported.") := by
  simp [lens_image, h1, h2, h3]

/-- Witness for C7 at a concrete lens with the unrecognized tag `quasar`,
with a time series supplied. -/
theorem claim_C7_witness :
    lens_image qBackend draw0 (qLens "quasar") "i" (.inl 27) (1 / 5) 4
        (.inl qImage) (.inl qMat) none (some [0]) =
      .error (.valueError "source type is not supported.") :=
  claim_C7 qBackend draw0 (qLens "quasar") "i" (.inl 27) (1 / 5) 4
    (.inl qImage) (.inl qMat) none (some [0]) (by decide) (by decide)
    (by decide)

/-- Counterexample to C1 as stated: a time-series invocation whose epoch
sequences have mismatched lengths (`t_obs` has 2 entries, the PSF-kernel
sequence has 3) does not fail with a configuration error — the call silently
truncates to the shortest sequence and succeeds, returning images. -/
theorem claim_C1_counterexample :
    ([(0 : ℚ), 1].length ≠ [qImage, qImage, qImage].length) ∧
    exceptIsOk (lens_image qBackend draw0 (qLens "point_source") "i"
      (.inr [27, 27]) (1 / 5) 4 (.inr [qImage, qImage, qImage])
      (.inr [qMat, qMat]) none (some [0, 1])) = true :=
  ⟨by decide, by rfl⟩

/-- Counterexample to C5 as stated: a time-series invocation with matching
epoch sequences of length `K = 0` does not return 0 images — reading
`image[0].shape` in `point_source_image_with_variability` raises an
`IndexError`. -/
theorem claim_C5_counterexample :
    lens_image qBackend draw0 (qLens "point_source") "i" (.inr []) (1 / 5) 4
        (.inr []) (.inr []) none (some []) =
      .error .indexError := by
  rfl

/-- Witness for C4 at `num_pix = 3` and the identity transform over `ℚ`. -/
theorem claim_C4_witness :
    centered_coordinate_system 3 (⟨1, 0, 0, 1⟩ : Mat2 ℚ) =
      ⟨-(((((3 : ℕ) : ℚ) - 1) / 2) * (1 : ℚ) + ((((3 : ℕ) : ℚ) - 1) / 2) * (0 : ℚ)),
       -(((((3 : ℕ) : ℚ) - 1) / 2) * (0 : ℚ) + ((((3 : ℕ) : ℚ) - 1) / 2) * (1 : ℚ)),
       ⟨1, 0, 0, 1⟩⟩ ∧
    map_pix2coord (centered_coordinate_system 3 (⟨1, 0, 0, 1⟩ : Mat2 ℚ))
      ((((3 : ℕ) : ℚ) - 1) / 2) ((((3 : ℕ) : ℚ) - 1) / 2) = (0, 0) :=
  claim_C4 3 ⟨1, 0, 0, 1⟩ (by decide)

/-- Shape preservation and non-negativity of a noised output image with
respect to its input image. -/
def NoisedOk (o im : PImage R) : Prop :=
  o.rows = im.rows ∧ o.cols = im.cols ∧ ∀ a b, 0 ≤ o.pix a b

/-- The list branch of the noise model leaves the caller's list holding the
clipped arrays whenever the exposure list covers every index reached. -/
theorem noiseAux_state (draw : ℕ → ℕ → ℕ → ℕ) (es : List R) :
    ∀ (imgs : List (PImage R)) (k : ℕ),
      (∀ i, i < imgs.length → k + i < es.length) →
      (noiseAux draw (pyExpoAt (Sum.inr es)) k imgs).1 = imgs.map pyClipNeg
  | [], _, _ => rfl
  | img :: rest, k, h => by
    have hk : k < es.length := by simpa using h 0 (by simp)
    have hsome : es[k]? = some es[k] := List.getElem?_eq_getElem hk
    have ih := noiseAux_state draw es rest (k + 1) (fun i hi => by
      have := h (i + 1) (by simpa using Nat.succ_lt_succ hi)
      omega)
    simp [noiseAux, pyExpoAt, hsome, ih]

/-- The list branch of the noise model succeeds when the exposure list covers
every index reached, and every output image has the input's shape and only
non-negative pixels when the exposures are positive. -/
theorem noiseAux_ok (draw : ℕ → ℕ → ℕ → ℕ) (es : List R)
    (hpos : ∀ e ∈ es, 0 < e) :
    ∀ (imgs : List (PImage R)) (k : ℕ),
      (∀ i, i < imgs.length → k + i < es.length) →
      ∃ outs, (noiseAux draw (pyExpoAt (Sum.inr es)) k imgs).2 = .ok outs ∧
        List.Forall₂ (NoisedOk (R := R)) outs imgs
  | [], _, _ => ⟨[], rfl, List.Forall₂.nil⟩
  | img :: rest, k, h => by
    have hk : k < es.length := by simpa using h 0 (by simp)
    have hsome : es[k]? = some es[k] := List.getElem?_eq_getElem hk
    obtain ⟨outs, houts, hrel⟩ := noiseAux_ok draw es hpos rest (k + 1)
      (fun i hi => by
        have := h (i + 1) (by simpa using Nat.succ_lt_succ hi)
        omega)
    refine ⟨pyPoissonDiv (draw k) (pyClipNeg img) es[k] :: outs, ?_, ?_⟩
    · simp [noiseAux, pyExpoAt, hsome, houts, Except.map]
    · refine List.Forall₂.cons ⟨rfl, rfl, fun a b => ?_⟩ hrel
      exact div_nonneg (Nat.cast_nonneg _) (hpos _ (List.getElem_mem hk)).le

/-- C9: for every input image (or list of images), negative pixel values
included, and every positive exposure time (or covering list of positive
exposure times), and for every outcome of the Poisson draw, the noise model
succeeds and its output has the same shape as the input with every pixel
non-negative. -/
theorem claim_C9 (draw : ℕ → ℕ → ℕ → ℕ) :
    (∀ (img : PImage R) (e : R), 0 < e →
      (image_plus_possion_noise draw (.inl img) (.inl e)).2 =
        .ok (.inl (pyPoissonDiv (draw 0) (pyClipNeg img) e)) ∧
      NoisedOk (pyPoissonDiv (draw 0) (pyClipNeg img) e) img) ∧
    ∀ (imgs : List (PImage R)) (es : List R), es.length = imgs.length →
      (∀ e ∈ es, 0 < e) →
      ∃ outs, (image_plus_possion_noise draw (.inr imgs) (.inr es)).2 =
          .ok (.inr outs) ∧ List.Forall₂ (NoisedOk (R := R)) outs imgs := by
  constructor
  · intro img e he
    exact ⟨rfl, rfl, rfl, fun i j => div_nonneg (Nat.cast_nonneg _) he.le⟩
  · intro imgs es hlen hpos
    obtain ⟨outs, hok, hrel⟩ :=
      noiseAux_ok draw es hpos imgs 0 (fun i hi => by omega)
    exact ⟨outs, by simp [image_plus_possion_noise, hok, Except.map], hrel⟩

/-- A concrete 1×1 image over `ℚ` whose only pixel is negative. -/
def qNegImage : PImage ℚ := ⟨1, 1, fun _ _ => -1⟩

/-- Witness for C9: the single-image case at a concrete negative-valued
image and exposure time 2 over `ℚ`. -/
theorem claim_C9_witness :
    (image_plus_possion_noise draw0 (.inl qNegImage) (.inl (2 : ℚ))).2 =
      .ok (.inl (pyPoissonDiv (draw0 0) (pyClipNeg qNegImage) 2)) ∧
    NoisedOk (pyPoissonDiv (draw0 0) (pyClipNeg qNegImage) 2) qNegImage :=
  (claim_C9 draw0).1 qNegImage 2 (by norm_num)

/-- C10: the noise model mutates its argument in place — after the call the
caller's array is the clipped array, any pixel that was negative is zero,
and the argument is left with no negative entries, even though the noised
result is returned as a separate value.  The same holds elementwise for a
list argument with a matching exposure list. -/
theorem claim_C10 (draw : ℕ → ℕ → ℕ → ℕ) :
    (∀ (img : PImage R) (e : R ⊕ List R) (i j : ℕ), img.pix i j < 0 →
      (image_plus_possion_noise draw (.inl img) e).1 = .inl (pyClipNeg img) ∧
      (pyClipNeg img).pix i j = 0 ∧
      ∀ a b, ¬ (pyClipNeg img).pix a b < 0) ∧
    ∀ (imgs : List (PImage R)) (es : List R), es.length = imgs.length →
      (image_plus_possion_noise draw (.inr imgs) (.inr es)).1 =
        .inr (imgs.map pyClipNeg) ∧
      ∀ img ∈ imgs, ∀ a b, ¬ (pyClipNeg img).pix a b < 0 := by
  constructor
  · intro img e i j hneg
    refine ⟨by cases e <;> rfl, by simp [pyClipNeg, hneg], fun a b => ?_⟩
    simp only [pyClipNeg]
    split
    · exact lt_irrefl 0
    · assumption
  · intro imgs es hlen
    refine ⟨?_, fun img _ a b => ?_⟩
    · have hst := noiseAux_state draw es imgs 0 (fun i hi => by omega)
      simp [image_plus_possion_noise, hst]
    · simp only [pyClipNeg]
      split
      · exact lt_irrefl 0
      · assumption

/-- Witness for C10: the single-image case at a concrete negative-valued
image over `ℚ`, with a scalar exposure. -/
theorem claim_C10_witness :
    (image_plus_possion_noise draw0 (.inl qNegImage) (.inl (2 : ℚ))).1 =
      .inl (pyClipNeg qNegImage) ∧
    (pyClipNeg qNegImage).pix 0 0 = 0 ∧
    ∀ a b, ¬ (pyClipNeg qNegImage).pix a b < 0 :=
  (claim_C10 draw0).1 qNegImage (.inl 2) 0 0 (by decide)

/-- Three-way `zipWith`, truncating to the shortest list. -/
def zipW3 {α β γ δ : Type} (f : α → β → γ → δ) :
    List α → List β → List γ → List δ
  | a :: as_, b :: bs, c :: cs => f a b c :: zipW3 f as_ bs cs
  | _, _, _ => []

theorem zipW3_length_of_eq {α β γ δ : Type} (f : α → β → γ → δ) :
    ∀ (as_ : List α) (bs : List β) (cs : List γ),
      bs.length = as_.length → cs.length = as_.length →
      (zipW3 f as_ bs cs).length = as_.length := by
  intro as_
  induction as_ with
  | nil => intro bs cs h1 h2; cases bs <;> cases cs <;> simp [zipW3]
  | cons a as_ ih =>
    intro bs cs h1 h2
    cases bs with
    | nil => simp at h1
    | cons b bs =>
      cases cs with
      | nil => simp at h2
      | cons c cs =>
        simp only [zipW3, List.length_cons]
        rw [ih bs cs (by simpa using h1) (by simpa using h2)]

theorem zipW3_mem {α β γ δ : Type} (f : α → β → γ → δ) :
    ∀ (as_ : List α) (bs : List β) (cs : List γ),
      ∀ x ∈ zipW3 f as_ bs cs, ∃ a b c, x = f a b c := by
  intro as_
  induction as_ with
  | nil => intro bs cs x hx; cases bs <;> cases cs <;> simp [zipW3] at hx
  | cons a as_ ih =>
    intro bs cs x hx
    cases bs with
    | nil => simp [zipW3] at hx
    | cons b bs =>
      cases cs with
      | nil => simp [zipW3] at hx
      | cons c cs =>
        rcases List.mem_cons.mp hx with h | h
        · exact ⟨a, b, c, h⟩
        · exact ih bs cs x h

theorem zipW3_map3 {α β γ γ' δ : Type} (f : α → β → γ' → δ) (g : γ → γ') :
    ∀ (as_ : List α) (bs : List β) (cs : List γ),
      zipW3 f as_ bs (cs.map g) = zipW3 (fun a b c => f a b (g c)) as_ bs cs := by
  intro as_
  induction as_ with
  | nil => intro bs cs; cases bs <;> cases cs <;> simp [zipW3]
  | cons a as_ ih =>
    intro bs cs
    cases bs with
    | nil => simp [zipW3]
    | cons b bs =>
      cases cs with
      | nil => simp [zipW3]
      | cons c cs => simp [zipW3, ih]

/-- The indexed render loop succeeds on lists of equal length and produces
the lockstep zip of the three lists. -/
theorem renderEach_ok (f : R → R → R → PImage R) :
    ∀ (ra dec amp : List R), dec.length = ra.length →
      amp.length = ra.length →
      renderEach f ra dec amp = .ok (zipW3 f ra dec amp) := by
  intro ra
  induction ra with
  | nil =>
    intro dec amp h1 h2
    cases dec with
    | nil => cases amp with
      | nil => rfl
      | cons a amp => simp at h2
    | cons d dec => simp at h1
  | cons r ra ih =>
    intro dec amp h1 h2
    cases dec with
    | nil => simp at h1
    | cons d dec =>
      cases amp with
      | nil => simp at h2
      | cons a amp =>
        simp only [renderEach, zipW3,
          ih dec amp (by simpa using h1) (by simpa using h2), Except.map]

/-- The per-lensed-image renders produced by
`point_source_image_without_variability` on a well-formed lens system: one
independent `point_source_rendering` call per lensed-image position, at the
amplitude obtained from that image's magnitude and the zero point. -/
def noVarRenders (B : Backend R) (lens_class : LensSystem R) (band : String)
    (mag_zero_point delta_pix : R) (num_pix : ℕ) (psf_kernel : PImage R)
    (transform_pix2angle : Mat2 R) : List (PImage R) :=
  zipW3
    (fun r d a => B.point_source_rendering
      (image_data_class lens_class band mag_zero_point delta_pix num_pix
        transform_pix2angle) num_pix psf_kernel r d a)
    lens_class.image_ra lens_class.image_dec
    ((lens_class.point_source_magnitude_static band).map
      (fun m => B.magnitude_to_amplitude m mag_zero_point))

theorem point_source_image_without_variability_ok (B : Backend R)
    (lens_class : LensSystem R) (band : String) (mag_zero_point delta_pix : R)
    (num_pix : ℕ) (psf_kernel : PImage R) (transform_pix2angle : Mat2 R)
    (hwf : lens_class.wf) :
    point_source_image_without_variability B lens_class band mag_zero_point
        delta_pix num_pix psf_kernel transform_pix2angle =
      .ok (noVarRenders B lens_class band mag_zero_point delta_pix num_pix
        psf_kernel transform_pix2angle) :=
  renderEach_ok _ _ _ _ hwf.1 (by simpa using hwf.2.1 band)

/-- C8: for every well-formed lens system exposing `N` lensed-image sky
positions, the no-variability point-source renderer returns a list of
exactly `N` rendered images — one per position, not summed — and, given the
external renderer's guarantee (spec section 4.6) that each render has the
requested pixel count, each image has the grid's pixel dimensions. -/
theorem claim_C8 (B : Backend R) (lens_class : LensSystem R) (band : String)
    (mag_zero_point delta_pix : R) (num_pix : ℕ) (psf_kernel : PImage R)
    (transform_pix2angle : Mat2 R) (hwf : lens_class.wf)
    (hshape : ∀ g k r d a, (B.point_source_rendering g num_pix k r d a).rows =
      num_pix ∧ (B.point_source_rendering g num_pix k r d a).cols = num_pix) :
    point_source_image_without_variability B lens_class band mag_zero_point
        delta_pix num_pix psf_kernel transform_pix2angle =
      .ok (noVarRenders B lens_class band mag_zero_point delta_pix num_pix
        psf_kernel transform_pix2angle) ∧
    (noVarRenders B lens_class band mag_zero_point delta_pix num_pix
        psf_kernel transform_pix2angle).length =
      lens_class.image_ra.length ∧
    ∀ im ∈ noVarRenders B lens_class band mag_zero_point delta_pix num_pix
        psf_kernel transform_pix2angle,
      im.rows = num_pix ∧ im.cols = num_pix := by
  refine ⟨point_source_image_without_variability_ok B lens_class band
    mag_zero_point delta_pix num_pix psf_kernel transform_pix2angle hwf,
    zipW3_length_of_eq _ _ _ _ hwf.1 (by simpa using hwf.2.1 band),
    fun im him => ?_⟩
  obtain ⟨r, d, a, rfl⟩ := zipW3_mem _ _ _ _ im him
  exact hshape _ _ r d a

/-- Witness for C8 at the concrete one-image `ℚ` lens and backend. -/
theorem claim_C8_witness :
    point_source_image_without_variability qBackend (qLens "point_source")
        "i" 27 (1 / 5) 4 qImage qMat =
      .ok (noVarRenders qBackend (qLens "point_source") "i" 27 (1 / 5) 4
        qImage qMat) ∧
    (noVarRenders qBackend (qLens "point_source") "i" 27 (1 / 5) 4 qImage
        qMat).length = (qLens "point_source").image_ra.length ∧
    ∀ im ∈ noVarRenders qBackend (qLens "point_source") "i" 27 (1 / 5) 4
        qImage qMat, im.rows = 4 ∧ im.cols = 4 :=
  claim_C8 qBackend (qLens "point_source") "i" 27 (1 / 5) 4 qImage qMat
    ⟨rfl, fun _ => rfl, fun _ _ => rfl⟩ (fun g k r d a => ⟨rfl, rfl⟩)

theorem foldl_add_pix (i j : ℕ) :
    ∀ (l : List (PImage R)) (a : PImage R),
      (l.foldl PImage.add a).pix i j =
        a.pix i j + (l.map (fun im => im.pix i j)).sum := by
  intro l
  induction l with
  | nil => intro a; simp
  | cons b l ih =>
    intro a
    simp only [List.foldl_cons, ih, List.map_cons, List.sum_cons, PImage.add]
    ring

/-- Pointwise meaning of `sum(point_images) + convolved`: every pixel of the
result is the sum over the per-image renders of that pixel, plus the
convolved image's pixel. -/
theorem pySumPlus_pix (l : List (PImage R)) (c : PImage R) (i j : ℕ) :
    (pySumPlus l c).pix i j =
      (l.map (fun im => im.pix i j)).sum + c.pix i j := by
  cases l with
  | nil => simp [pySumPlus]
  | cons a rest =>
    simp only [pySumPlus, PImage.add, foldl_add_pix, List.map_cons,
      List.sum_cons]

/-- C2: for every well-formed lens system of source type `point_source` or
`point_plus_extended_source`, with no time series and no exposure time, the
pipeline output is the elementwise sum, over all lensed images, of the
independently PSF-rendered point-source images — one per lensed-image
position, at amplitude `10^(−0.4·(magnitude − zero_point))` — plus the
PSF-convolved unconvolved extended image rendered at the same zero point. -/
theorem claim_C2 (B : Backend ℝ) (draw : ℕ → ℕ → ℕ → ℕ)
    (lens_class : LensSystem ℝ) (band : String) (z delta_pix : ℝ)
    (num_pix : ℕ) (k : PImage ℝ) (tf : Mat2 ℝ)
    (hB : B.magnitude_to_amplitude = magnitude_to_amplitude)
    (hwf : lens_class.wf)
    (hsrc : lens_class._source_type = "point_source" ∨
      lens_class._source_type = "point_plus_extended_source") :
    lens_image B draw lens_class band (.inl z) delta_pix num_pix (.inl k)
        (.inl tf) none none =
      .ok (.inl (pySumPlus
        (noVarRenders B lens_class band z delta_pix num_pix k tf)
        (convolved_image
          (sharp_image B lens_class band z delta_pix num_pix true true)
          k))) ∧
    noVarRenders B lens_class band z delta_pix num_pix k tf =
      zipW3
        (fun r d m => B.point_source_rendering
          (image_data_class lens_class band z delta_pix num_pix tf) num_pix k
          r d (magnitude_to_amplitude m z))
        lens_class.image_ra lens_class.image_dec
        (lens_class.point_source_magnitude_static band) ∧
    ∀ i j,
      (pySumPlus (noVarRenders B lens_class band z delta_pix num_pix k tf)
        (convolved_image
          (sharp_image B lens_class band z delta_pix num_pix true true)
          k)).pix i j =
      ((noVarRenders B lens_class band z delta_pix num_pix k tf).map
        (fun im => im.pix i j)).sum +
      (convolved_image
        (sharp_image B lens_class band z delta_pix num_pix true true)
        k).pix i j := by
  have hok := point_source_image_without_variability_ok B lens_class band z
    delta_pix num_pix k tf hwf
  refine ⟨?_, ?_, fun i j => pySumPlus_pix _ _ i j⟩
  · rcases hsrc with h | h <;>
      simp [lens_image, h, hok, Bind.bind, Except.bind]
  · simp only [noVarRenders, zipW3_map3, hB]

/-- A concrete 2×2 test image over `ℝ`. -/
noncomputable def rImage : PImage ℝ := ⟨2, 2, fun _ _ => 1⟩

/-- The identity transform over `ℝ`. -/
noncomputable def rMat : Mat2 ℝ := ⟨1, 0, 0, 1⟩

/-- A concrete backend over `ℝ` whose photometric conversion is the spec
formula. -/
noncomputable def rBackend : Backend ℝ :=
  ⟨fun _ _ _ _ n _ _ _ => ⟨n, n, fun _ _ => 1⟩,
   fun _ n _ _ _ a => ⟨n, n, fun _ _ => a⟩,
   magnitude_to_amplitude⟩

/-- A concrete two-image point-source lens system over `ℝ`. -/
noncomputable def rLens : LensSystem ℝ :=
  ⟨"point_source", (0, 0), [1, 2], [1, 2], fun _ => [20, 21], fun _ t => [t, t]⟩

/-- Witness for C2 at the concrete two-image `ℝ` lens with zero point 27. -/
theorem claim_C2_witness :
    lens_image rBackend draw0 rLens "i" (.inl 27) (1 / 5) 4 (.inl rImage)
        (.inl rMat) none none =
      .ok (.inl (pySumPlus (noVarRenders rBackend rLens "i" 27 (1 / 5) 4
          rImage rMat)
        (convolved_image
          (sharp_image rBackend rLens "i" 27 (1 / 5) 4 true true)
          rImage))) ∧
    noVarRenders rBackend rLens "i" 27 (1 / 5) 4 rImage rMat =
      zipW3
        (fun r d m => rBackend.point_source_rendering
          (image_data_class rLens "i" 27 (1 / 5) 4 rMat) 4 rImage r d
          (magnitude_to_amplitude m 27))
        rLens.image_ra rLens.image_dec
        (rLens.point_source_magnitude_static "i") ∧
    ∀ i j,
      (pySumPlus (noVarRenders rBackend rLens "i" 27 (1 / 5) 4 rImage rMat)
        (convolved_image
          (sharp_image rBackend rLens "i" 27 (1 / 5) 4 true true)
          rImage)).pix i j =
      ((noVarRenders rBackend rLens "i" 27 (1 / 5) 4 rImage rMat).map
        (fun im => im.pix i j)).sum +
      (convolved_image
        (sharp_image rBackend rLens "i" 27 (1 / 5) 4 true true)
        rImage).pix i j :=
  claim_C2 rBackend draw0 rLens "i" 27 (1 / 5) 4 rImage rMat rfl
    ⟨rfl, fun _ => rfl, fun _ _ => rfl⟩ (Or.inl rfl)

/-- The per-lensed-image renders produced by `point_source_image_at_time` on
a well-formed lens system: one render per lensed-image position, at the
amplitude obtained from that image's magnitude at the given time and this
epoch's zero point. -/
def atTimeRenders (B : Backend R) (lens_class : LensSystem R) (band : String)
    (mag_zero_point delta_pix : R) (num_pix : ℕ) (psf_kernel : PImage R)
    (transform_pix2angle : Mat2 R) (time : R) : List (PImage R) :=
  zipW3
    (fun r d a => B.point_source_rendering
      (image_data_class lens_class band mag_zero_point delta_pix num_pix
        transform_pix2angle) num_pix psf_kernel r d a)
    lens_class.image_ra lens_class.image_dec
    ((lens_class.point_source_magnitude_at band time).map
      (fun m => B.magnitude_to_amplitude m mag_zero_point))

theorem point_source_image_at_time_ok (B : Backend R)
    (lens_class : LensSystem R) (band : String) (mag_zero_point delta_pix : R)
    (num_pix : ℕ) (psf_kernel : PImage R) (transform_pix2angle : Mat2 R)
    (time : R) (hwf : lens_class.wf) :
    point_source_image_at_time B lens_class band mag_zero_point delta_pix
        num_pix psf_kernel transform_pix2angle time =
      .ok (atTimeRenders B lens_class band mag_zero_point delta_pix num_pix
        psf_kernel transform_pix2angle time) :=
  renderEach_ok _ _ _ _ hwf.1 (by simpa using hwf.2.2 band time)

theorem zip4_length_of_eq {α β γ δ : Type} :
    ∀ (as_ : List α) (bs : List β) (cs : List γ) (ds : List δ),
      bs.length = as_.length → cs.length = as_.length →
      ds.length = as_.length →
      (zip4 as_ bs cs ds).length = as_.length := by
  intro as_
  induction as_ with
  | nil =>
    intro bs cs ds h1 h2 h3
    cases bs <;> cases cs <;> cases ds <;> simp [zip4]
  | cons a as_ ih =>
    intro bs cs ds h1 h2 h3
    cases bs with
    | nil => simp at h1
    | cons b bs =>
      cases cs with
      | nil => simp at h2
      | cons c cs =>
        cases ds with
        | nil => simp at h3
        | cons d ds =>
          simp only [zip4, List.length_cons]
          rw [ih bs cs ds (by simpa using h1) (by simpa using h2)
            (by simpa using h3)]

theorem zip4_length_le_right {α β γ δ : Type} :
    ∀ (as_ : List α) (bs : List β) (cs : List γ) (ds : List δ),
      (zip4 as_ bs cs ds).length ≤ bs.length ∧
      (zip4 as_ bs cs ds).length ≤ cs.length ∧
      (zip4 as_ bs cs ds).length ≤ ds.length := by
  intro as_
  induction as_ with
  | nil =>
    intro bs cs ds
    cases bs <;> cases cs <;> cases ds <;> simp [zip4]
  | cons a as_ ih =>
    intro bs cs ds
    cases bs with
    | nil => simp [zip4]
    | cons b bs =>
      cases cs with
      | nil => simp [zip4]
      | cons c cs =>
        cases ds with
        | nil => simp [zip4]
        | cons d ds =>
          obtain ⟨ih1, ih2, ih3⟩ := ih bs cs ds
          simp only [zip4, List.length_cons]
          omega

theorem exMapM_ok {α β : Type} (g : α → Except Err β) (h : α → β) :
    ∀ (l : List α), (∀ x ∈ l, g x = .ok (h x)) →
      exMapM g l = .ok (l.map h) := by
  intro l
  induction l with
  | nil => intro _; rfl
  | cons a l ih =>
    intro hall
    simp only [exMapM, hall a (List.mem_cons_self a l),
      ih (fun x hx => hall x (List.mem_cons_of_mem a hx)), Except.map,
      List.map_cons]

theorem composeEpochs_ok :
    ∀ (point conv : List (PImage R)) (K : ℕ), point.length = K →
      conv.length = K →
      composeEpochs point conv K = .ok (List.zipWith PImage.add point conv) := by
  intro point
  induction point with
  | nil =>
    intro conv K h1 h2
    cases K with
    | zero => cases conv with
      | nil => rfl
      | cons c cs => simp at h2
    | succ n => simp at h1
  | cons p ps ih =>
    intro conv K h1 h2
    cases K with
    | zero => simp at h1
    | succ n =>
      cases conv with
      | nil => simp at h2
      | cons c cs =>
        simp only [composeEpochs, ih cs n (by simpa using h1)
          (by simpa using h2), Except.map, List.zipWith_cons_cons]

theorem composeEpochs_err :
    ∀ (point conv : List (PImage R)) (K : ℕ), point.length < K →
      composeEpochs point conv K = .error .indexError := by
  intro point
  induction point with
  | nil =>
    intro conv K h
    cases K with
    | zero => simp at h
    | succ n => rfl
  | cons p ps ih =>
    intro conv K h
    cases K with
    | zero => simp at h
    | succ n =>
      cases conv with
      | nil => rfl
      | cons c cs =>
        simp only [composeEpochs, ih cs n (by simpa using h), Except.map]

/-- numpy's summed array for one epoch: `np.zeros(shape) + img_0 + … +
img_(N−1)` over the per-lensed-image renders of that epoch. -/
def npSumImages : List (PImage R) → PImage R
  | [] => ⟨0, 0, fun _ _ => 0⟩
  | a :: l => List.foldl PImage.add (zeroLike a) (a :: l)

theorem transposePy_cons₂ {α : Type} (xs ys : List α) (rest : List (List α)) :
    transposePy (xs :: ys :: rest) =
      List.zipWith List.cons xs (transposePy (ys :: rest)) := by
  rfl

theorem transposePy_length {α : Type} (N : ℕ) :
    ∀ (xss : List (List α)), xss ≠ [] → (∀ xs ∈ xss, xs.length = N) →
      (transposePy xss).length = N := by
  intro xss
  induction xss with
  | nil => intro h _; exact absurd rfl h
  | cons xs rest ih =>
    intro _ hall
    cases rest with
    | nil => simp [transposePy, hall xs (by simp)]
    | cons ys rest2 =>
      have hT := ih (by simp)
        (fun a ha => hall a (List.mem_cons_of_mem _ ha))
      rw [transposePy_cons₂, List.length_zipWith, hT, hall xs (by simp),
        Nat.min_self]

theorem foldl_zipWith_singleton :
    ∀ (l : List (PImage R)) (z : PImage R),
      List.foldl (List.zipWith PImage.add) [z] (l.map (fun a => [a])) =
        [l.foldl PImage.add z] := by
  intro l
  induction l with
  | nil => intro z; rfl
  | cons a l ih =>
    intro z
    simp only [List.map_cons, List.foldl_cons, List.zipWith_cons_cons,
      List.zipWith_nil_right]
    exact ih (z.add a)

theorem foldl_zipWith_cons :
    ∀ (heads : List (PImage R)) (tails : List (List (PImage R))),
      heads.length = tails.length →
      ∀ (z : PImage R) (zs : List (PImage R)),
        List.foldl (List.zipWith PImage.add) (z :: zs)
            (List.zipWith List.cons heads tails) =
          heads.foldl PImage.add z ::
            List.foldl (List.zipWith PImage.add) zs tails := by
  intro heads
  induction heads with
  | nil =>
    intro tails hlen z zs
    cases tails with
    | nil => rfl
    | cons t ts => simp at hlen
  | cons h hs ih =>
    intro tails hlen z zs
    cases tails with
    | nil => simp at hlen
    | cons t ts =>
      simp only [List.zipWith_cons_cons, List.foldl_cons]
      exact ih ts (by simpa using hlen) (z.add h)
        (List.zipWith PImage.add zs t)

/-- On a non-empty rectangular list of per-epoch render lists (one row per
epoch, each row holding one image per lensed image, at least one lensed
image), the transpose-and-fold tail of
`point_source_image_with_variability` returns the per-epoch sums. -/
theorem npEpochSum_rect (N : ℕ) (hN : 1 ≤ N) :
    ∀ (A : List (List (PImage R))), A ≠ [] → (∀ r ∈ A, r.length = N) →
      npEpochSum A = .ok (A.map npSumImages) := by
  intro A
  induction A with
  | nil => intro h _; exact absurd rfl h
  | cons r A' ih =>
    intro _ hall
    have hr : r.length = N := hall r (by simp)
    obtain ⟨a, rt, rfl⟩ : ∃ a rt, r = a :: rt := by
      cases r with
      | nil => simp at hr; omega
      | cons a rt => exact ⟨a, rt, rfl⟩
    cases A' with
    | nil =>
      have htr : transposePy [a :: rt] = [a] :: rt.map (fun x => [x]) := by
        simp [transposePy]
      simp only [npEpochSum, htr, List.map_cons, List.map_nil,
        List.foldl_cons, List.zipWith_cons_cons, List.zipWith_nil_right,
        foldl_zipWith_singleton, npSumImages]
    | cons b A'' =>
      have hallT : ∀ xs ∈ b :: A'', xs.length = N :=
        fun xs hxs => hall xs (List.mem_cons_of_mem _ hxs)
      have hlenT : (transposePy (b :: A'')).length = N :=
        transposePy_length N (b :: A'') (by simp) hallT
      obtain ⟨f', rest', hfr⟩ :
          ∃ f' rest', transposePy (b :: A'') = f' :: rest' := by
        cases htp : transposePy (b :: A'') with
        | nil => rw [htp] at hlenT; simp at hlenT; omega
        | cons f' rest' => exact ⟨f', rest', rfl⟩
      have hIH := ih (by simp) hallT
      rw [npEpochSum, hfr] at hIH
      have hsecond :
          List.foldl (List.zipWith PImage.add) (f'.map zeroLike)
              (f' :: rest') =
            (b :: A'').map npSumImages := by
        simpa using hIH
      have hlen2 : (a :: rt).length = (f' :: rest').length := by
        rw [hr, ← hfr, hlenT]
      have htr3 : transposePy ((a :: rt) :: b :: A'') =
          (a :: f') :: List.zipWith List.cons rt rest' := by
        rw [transposePy_cons₂, hfr, List.zipWith_cons_cons]
      have hregroup :
          (a :: f') :: List.zipWith List.cons rt rest' =
            List.zipWith List.cons (a :: rt) (f' :: rest') := by
        simp [List.zipWith_cons_cons]
      simp only [npEpochSum, htr3, List.map_cons]
      rw [hregroup,
        foldl_zipWith_cons (a :: rt) (f' :: rest') hlen2 (zeroLike a)
          (f'.map zeroLike), hsecond]
      simp [npSumImages]

theorem point_source_image_with_variability_ok (B : Backend R)
    (lens_class : LensSystem R) (band : String) (zs : List R) (delta_pix : R)
    (num_pix : ℕ) (ks : List (PImage R)) (tfs : List (Mat2 R)) (ts : List R)
    (hwf : lens_class.wf) (hra : lens_class.image_ra ≠ [])
    (hq : zip4 ts ks zs tfs ≠ []) :
    point_source_image_with_variability B lens_class band zs delta_pix
        num_pix ks tfs ts =
      .ok ((zip4 ts ks zs tfs).map (fun q =>
        npSumImages (atTimeRenders B lens_class band q.2.2.1 delta_pix
          num_pix q.2.1 q.2.2.2 q.1))) := by
  have hmap : ∀ q ∈ zip4 ts ks zs tfs,
      point_source_image_at_time B lens_class band q.2.2.1 delta_pix num_pix
          q.2.1 q.2.2.2 q.1 =
        .ok (atTimeRenders B lens_class band q.2.2.1 delta_pix num_pix q.2.1
          q.2.2.2 q.1) :=
    fun q _ => point_source_image_at_time_ok B lens_class band q.2.2.1
      delta_pix num_pix q.2.1 q.2.2.2 q.1 hwf
  have hex := exMapM_ok
    (fun q : R × PImage R × R × Mat2 R =>
      point_source_image_at_time B lens_class band q.2.2.1 delta_pix num_pix
        q.2.1 q.2.2.2 q.1)
    (fun q : R × PImage R × R × Mat2 R =>
      atTimeRenders B lens_class band q.2.2.1 delta_pix num_pix q.2.1
        q.2.2.2 q.1)
    (zip4 ts ks zs tfs) hmap
  have hN : 1 ≤ lens_class.image_ra.length := List.length_pos.mpr hra
  have hrect : ∀ r ∈ (zip4 ts ks zs tfs).map
      (fun q : R × PImage R × R × Mat2 R =>
        atTimeRenders B lens_class band q.2.2.1 delta_pix num_pix q.2.1
          q.2.2.2 q.1),
      r.length = lens_class.image_ra.length := by
    intro r hr
    obtain ⟨q, hq2, rfl⟩ := List.mem_map.mp hr
    exact zipW3_length_of_eq _ _ _ _ hwf.1
      (by simpa using hwf.2.2 band q.1)
  have hA : (zip4 ts ks zs tfs).map
      (fun q : R × PImage R × R × Mat2 R =>
        atTimeRenders B lens_class band q.2.2.1 delta_pix num_pix q.2.1
          q.2.2.2 q.1) ≠ [] := by
    simpa [List.map_eq_nil_iff] using hq
  have hrec := npEpochSum_rect lens_class.image_ra.length hN _ hA hrect
  simp only [point_source_image_with_variability, hex, Bind.bind,
    Except.bind, hrec, List.map_map]
  rfl

/-- The composite image of one observation epoch per spec section 4.7: the
summed per-lensed-image point-source renders at this epoch's time, zero
point, PSF and transform, plus this epoch's deflector image convolved with
this epoch's PSF.  The epoch is `q = (time, psf_kernel, zero_point,
transform)`. -/
def epochComposite (B : Backend R) (lens_class : LensSystem R) (band : String)
    (delta_pix : R) (num_pix : ℕ) (q : R × PImage R × R × Mat2 R) :
    PImage R :=
  (npSumImages (atTimeRenders B lens_class band q.2.2.1 delta_pix num_pix
    q.2.1 q.2.2.2 q.1)).add
    (convolved_image
      (sharp_image B lens_class band q.2.2.1 delta_pix num_pix true true)
      q.2.1)

theorem zip4_fuse (F : R × PImage R × R × Mat2 R → PImage R)
    (S : R → PImage R) :
    ∀ (ts : List R) (ks : List (PImage R)) (zs : List R)
      (tfs : List (Mat2 R)),
      ks.length = ts.length → zs.length = ts.length →
      tfs.length = ts.length →
      List.zipWith PImage.add ((zip4 ts ks zs tfs).map F)
          (List.zipWith convolved_image (zs.map S) ks) =
        (zip4 ts ks zs tfs).map
          (fun q => (F q).add (convolved_image (S q.2.2.1) q.2.1)) := by
  intro ts
  induction ts with
  | nil =>
    intro ks zs tfs h1 h2 h3
    cases ks <;> cases zs <;> cases tfs <;> simp [zip4]
  | cons t ts ih =>
    intro ks zs tfs h1 h2 h3
    cases ks with
    | nil => simp at h1
    | cons k ks =>
      cases zs with
      | nil => simp at h2
      | cons z zs =>
        cases tfs with
        | nil => simp at h3
        | cons tf tfs =>
          simp only [zip4, List.map_cons, List.zipWith_cons_cons]
          rw [ih ks zs tfs (by simpa using h1) (by simpa using h2)
            (by simpa using h3)]

/-- C5 (amended): for every time-series invocation on a well-formed lens
system of a point-source-bearing type with at least one lensed-image
position, with `t_obs` of length `K ≥ 1` and matching `K`-length zero-point,
PSF-kernel and transform sequences and no exposure time, the pipeline
returns exactly `K` images, the `i`-th being the composite (summed point
sources plus convolved deflector image) of the `i`-th observation epoch, in
the order of `t_obs`.  (As stated, the claim also covers `K = 0`, where the
code instead raises an `IndexError` — see the counterexample.) -/
theorem claim_C5_amended (B : Backend R) (draw : ℕ → ℕ → ℕ → ℕ)
    (lens_class : LensSystem R) (band : String) (delta_pix : R)
    (num_pix : ℕ) (ts : List R) (ks : List (PImage R)) (zs : List R)
    (tfs : List (Mat2 R)) (hwf : lens_class.wf)
    (hra : lens_class.image_ra ≠ [])
    (hsrc : lens_class._source_type = "point_source" ∨
      lens_class._source_type = "point_plus_extended_source")
    (hts : ts ≠ []) (hk : ks.length = ts.length) (hz : zs.length = ts.length)
    (htf : tfs.length = ts.length) :
    lens_image B draw lens_class band (.inr zs) delta_pix num_pix (.inr ks)
        (.inr tfs) none (some ts) =
      .ok (.inr ((zip4 ts ks zs tfs).map
        (epochComposite B lens_class band delta_pix num_pix))) ∧
    ((zip4 ts ks zs tfs).map
      (epochComposite B lens_class band delta_pix num_pix)).length =
      ts.length := by
  have hqlen : (zip4 ts ks zs tfs).length = ts.length :=
    zip4_length_of_eq _ _ _ _ hk hz htf
  have hq : zip4 ts ks zs tfs ≠ [] := by
    intro h
    rw [h] at hqlen
    exact hts (List.length_eq_zero.mp hqlen.symm)
  have hwv := point_source_image_with_variability_ok B lens_class band zs
    delta_pix num_pix ks tfs ts hwf hra hq
  have hplen : ((zip4 ts ks zs tfs).map
      (fun q : R × PImage R × R × Mat2 R =>
        npSumImages (atTimeRenders B lens_class band q.2.2.1 delta_pix
          num_pix q.2.1 q.2.2.2 q.1))).length = ts.length := by
    rw [List.length_map, hqlen]
  have hclen : (List.zipWith convolved_image
      (zs.map (fun z => sharp_image B lens_class band z delta_pix num_pix
        true true)) ks).length = ts.length := by
    rw [List.length_zipWith, List.length_map, hz, hk, Nat.min_self]
  have hcomp := composeEpochs_ok
    ((zip4 ts ks zs tfs).map
      (fun q : R × PImage R × R × Mat2 R =>
        npSumImages (atTimeRenders B lens_class band q.2.2.1 delta_pix
          num_pix q.2.1 q.2.2.2 q.1)))
    (List.zipWith convolved_image
      (zs.map (fun z => sharp_image B lens_class band z delta_pix num_pix
        true true)) ks)
    ts.length hplen hclen
  have hfuse := zip4_fuse
    (fun q : R × PImage R × R × Mat2 R =>
      npSumImages (atTimeRenders B lens_class band q.2.2.1 delta_pix num_pix
        q.2.1 q.2.2.2 q.1))
    (fun z => sharp_image B lens_class band z delta_pix num_pix true true)
    ts ks zs tfs hk hz htf
  refine ⟨?_, by rw [List.length_map, hqlen]⟩
  rcases hsrc with h | h <;>
    simp [lens_image, h, hwv, deflector_images_with_different_zeropoint,
      Bind.bind, Except.bind, hcomp, hfuse, epochComposite]

/-- Witness for the amended C5 at a concrete one-epoch, one-image `ℚ`
invocation. -/
theorem claim_C5_amended_witness :
    lens_image qBackend draw0 (qLens "point_source") "i" (.inr [27]) (1 / 5)
        4 (.inr [qImage]) (.inr [qMat]) none (some [0]) =
      .ok (.inr ((zip4 [(0 : ℚ)] [qImage] [27] [qMat]).map
        (epochComposite qBackend (qLens "point_source") "i" (1 / 5) 4))) ∧
    ((zip4 [(0 : ℚ)] [qImage] [27] [qMat]).map
      (epochComposite qBackend (qLens "point_source") "i" (1 / 5) 4)).length =
      [(0 : ℚ)].length :=
  claim_C5_amended qBackend draw0 (qLens "point_source") "i" (1 / 5) 4 [0]
    [qImage] [27] [qMat] ⟨rfl, fun _ => rfl, fun _ _ => rfl⟩ (by decide)
    (Or.inl rfl) (by decide) rfl rfl rfl

/-- C1 (amended): mismatched epoch-sequence lengths are not rejected by a
configuration check — the code truncates to the shortest sequence.  When
`t_obs` is strictly longer than the shortest of the PSF-kernel, zero-point
and transform sequences (as in the claim's example: three observation times
but two PSF kernels), the call fails with an uncaught `IndexError` — not a
configuration error — after rendering the truncated epochs, and returns no
image; this holds for any exposure-time argument. -/
theorem claim_C1_amended (B : Backend R) (draw : ℕ → ℕ → ℕ → ℕ)
    (lens_class : LensSystem R) (band : String) (delta_pix : R)
    (num_pix : ℕ) (ts : List R) (ks : List (PImage R)) (zs : List R)
    (tfs : List (Mat2 R)) (exposure_time : Option (R ⊕ List R))
    (hwf : lens_class.wf) (hra : lens_class.image_ra ≠ [])
    (hsrc : lens_class._source_type = "point_source" ∨
      lens_class._source_type = "point_plus_extended_source")
    (hgt : min (min ks.length zs.length) tfs.length < ts.length) :
    lens_image B draw lens_class band (.inr zs) delta_pix num_pix (.inr ks)
        (.inr tfs) exposure_time (some ts) = .error .indexError := by
  by_cases hq : zip4 ts ks zs tfs = []
  · have hwv : point_source_image_with_variability B lens_class band zs
        delta_pix num_pix ks tfs ts = .error .indexError := by
      simp [point_source_image_with_variability, hq, exMapM, Bind.bind,
        Except.bind, npEpochSum, transposePy]
    rcases hsrc with h | h <;>
      simp [lens_image, h, hwv, Bind.bind, Except.bind]
  · have hwv := point_source_image_with_variability_ok B lens_class band zs
      delta_pix num_pix ks tfs ts hwf hra hq
    obtain ⟨l1, l2, l3⟩ := zip4_length_le_right ts ks zs tfs
    have h4 : (zip4 ts ks zs tfs).length ≤
        min (min ks.length zs.length) tfs.length :=
      le_min (le_min l1 l2) l3
    have hlt : ((zip4 ts ks zs tfs).map
        (fun q : R × PImage R × R × Mat2 R =>
          npSumImages (atTimeRenders B lens_class band q.2.2.1 delta_pix
            num_pix q.2.1 q.2.2.2 q.1))).length < ts.length := by
      rw [List.length_map]
      omega
    have herr := composeEpochs_err
      ((zip4 ts ks zs tfs).map
        (fun q : R × PImage R × R × Mat2 R =>
          npSumImages (atTimeRenders B lens_class band q.2.2.1 delta_pix
            num_pix q.2.1 q.2.2.2 q.1)))
      (List.zipWith convolved_image
        (zs.map (fun z => sharp_image B lens_class band z delta_pix num_pix
          true true)) ks)
      ts.length hlt
    rcases hsrc with h | h <;>
      simp [lens_image, h, hwv, deflector_images_with_different_zeropoint,
        Bind.bind, Except.bind, herr]

/-- Witness for the amended C1 at the claim's own example shape: three
observation times but two PSF kernels (zero points and transforms of
length three). -/
theorem claim_C1_amended_witness :
    lens_image qBackend draw0 (qLens "point_source") "i"
        (.inr [27, 27, 27]) (1 / 5) 4 (.inr [qImage, qImage])
        (.inr [qMat, qMat, qMat]) none (some [0, 1, 2]) =
      .error .indexError :=
  claim_C1_amended qBackend draw0 (qLens "point_source") "i" (1 / 5) 4
    [0, 1, 2] [qImage, qImage] [27, 27, 27] [qMat, qMat, qMat] none
    ⟨rfl, fun _ => rfl, fun _ _ => rfl⟩ (by decide) (Or.inl rfl) (by decide)

end Slsim
